import Mathlib

/-!
Verification of the emitix event-hub core (listener registry, hub emit paths,
emitter/broadcaster handles, and the Leptos adapter) against its specification.

Modelling conventions for the shallow embedding:
* `std::collections::HashMap` is modelled as an association list with unique
  keys; `hmInsert` replaces any existing binding, `hmErase` removes one.
  Iteration order of a `HashMap` is unspecified, and the spec promises no
  ordering among listeners, so list order stands in for one arbitrary order.
* `uuid::Uuid::new_v4()` is modelled by a fresh-counter field `nextId` on the
  registry: its only relevant property is that generated ids are never reused.
* `RwLock` poisoning is modelled by an explicit `poisoned : Bool` argument on
  every operation that acquires the lock; the lock-scope structure of each emit
  path is modelled separately as a `LockStep` trace transcribed from the
  source's guard scopes.
* `anyhow::Error` values are modelled structurally by `EmitError`: the
  diagnostic text of lock-failure messages is abstracted, while an aggregate
  emit failure keeps its kind tag and the exact list of collected listener
  failure messages.
* Listener side effects are not observable in the embedding; instead each emit
  path is instrumented to return the trace of invocations it performs, as a
  list of pairs (listener id, argument passed).
-/

namespace Emitix

/-- Lookup in an association list, modelling HashMap::get. -/
def hmLookup {α β : Type _} [DecidableEq α] (k : α) : List (α × β) → Option β
  | [] => none
  | (k', v) :: rest => if k' = k then some v else hmLookup k rest

/-- Removal from an association list, modelling HashMap::remove. -/
def hmErase {α β : Type _} [DecidableEq α] (k : α) : List (α × β) → List (α × β)
  | [] => []
  | (k', v) :: rest => if k' = k then hmErase k rest else (k', v) :: hmErase k rest

/-- Insert-or-replace into an association list, modelling HashMap::insert. -/
def hmInsert {α β : Type _} [DecidableEq α] (k : α) (v : β) (m : List (α × β)) :
    List (α × β) :=
  (k, v) :: hmErase k m

/-- Key list of an association list, modelling HashMap::keys. -/
def hmKeys {α β : Type _} (m : List (α × β)) : List α :=
  m.map Prod.fst

/-- Model of event_hub::listener::Listener (src/src/event_hub/listener.rs:4-7):
an Arc-Mutex-wrapped callback. The field `poisoned` models whether that inner
callback mutex is poisoned at call time; `cb` models the callback's result. -/
structure Listener (T : Type) where
  poisoned : Bool
  cb : T → Except String Unit

/-- Model of Listener::call (src/src/event_hub/listener.rs:16-21): a poisoned
callback mutex yields an error, otherwise the callback runs. -/
def Listener.call {T : Type} (l : Listener T) (v : T) : Except String Unit :=
  if l.poisoned then Except.error "Failed to lock listener callback" else l.cb v

/-- Model of the registry shared by src/src/event_hub/registry.rs:7-10 and
src/src/leptos/registry.rs:10-13, which differ only in the stored callback
type, abstracted here as `V`: a forward map kind -> (id -> V), a reverse index
id -> kind, and the fresh-id counter modelling Uuid::new_v4 uniqueness. -/
structure ListenerRegistry (V : Type) where
  listeners : List (String × List (Nat × V))
  links : List (Nat × String)
  nextId : Nat

/-- Model of ListenerRegistry::new (both registry files). -/
def ListenerRegistry.new {V : Type} : ListenerRegistry V :=
  { listeners := [], links := [], nextId := 0 }

/-- Model of ListenerRegistry::clear (src/src/event_hub/registry.rs:20-23 and
src/src/leptos/registry.rs:23-26): empties both indices. -/
def ListenerRegistry.clear {V : Type} (r : ListenerRegistry V) : ListenerRegistry V :=
  { r with listeners := [], links := [] }

/-- Model of ListenerRegistry::remove_listener as written in
src/src/event_hub/registry.rs:29-42; the code in
src/src/leptos/registry.rs:32-45 is textually identical (see
`leptosRemoveListener` for its separate transcription). The reverse-index
entry is removed first; if the kind's bucket exists the id is removed from it
and the bucket is pruned when the removal leaves it empty, returning true. -/
def ListenerRegistry.remove_listener {V : Type} (r : ListenerRegistry V) (id : Nat) :
    Bool × ListenerRegistry V :=
  match hmLookup id r.links with
  | some kind =>
    let links' := hmErase id r.links
    match hmLookup kind r.listeners with
    | some bucket =>
      let bucket' := hmErase id bucket
      let listeners' :=
        if bucket'.isEmpty then hmErase kind r.listeners
        else hmInsert kind bucket' r.listeners
      (true, { r with listeners := listeners', links := links' })
    | none => (false, { r with links := links' })
  | none => (false, r)

/-- Separate transcription of ListenerRegistry::remove_listener from
src/src/leptos/registry.rs:32-45, kept distinct so that the two variants'
removal behaviour can be compared as the spec demands. -/
def leptosRemoveListener {V : Type} (r : ListenerRegistry V) (id : Nat) :
    Bool × ListenerRegistry V :=
  match hmLookup id r.links with
  | some kind =>
    let links' := hmErase id r.links
    match hmLookup kind r.listeners with
    | some bucket =>
      let bucket' := hmErase id bucket
      let listeners' :=
        if bucket'.isEmpty then hmErase kind r.listeners
        else hmInsert kind bucket' r.listeners
      (true, { r with listeners := listeners', links := links' })
    | none => (false, { r with links := links' })
  | none => (false, r)

/-- Model of ListenerRegistry::remove_listeners_by_kind
(src/src/event_hub/registry.rs:44-56; src/src/leptos/registry.rs:47-59 is
identical): removes the whole bucket, purges each contained id from the
reverse index, returns the number of listeners that bucket held. -/
def ListenerRegistry.remove_listeners_by_kind {V : Type} (r : ListenerRegistry V)
    (kind : String) : Nat × ListenerRegistry V :=
  match hmLookup kind r.listeners with
  | none => (0, r)
  | some bucket =>
    let links' := bucket.foldl (fun ls q => hmErase q.1 ls) r.links
    (bucket.length, { r with listeners := hmErase kind r.listeners, links := links' })

/-- Shared insert logic of ListenerRegistry::register_listener
(src/src/event_hub/registry.rs:58-76 and src/src/leptos/registry.rs:61-80,
which differ only in how the stored value is built from the user callback;
that value is passed in as `val`): a fresh id is generated, the value is
inserted into the kind's bucket (created if absent), and the reverse index
records id -> kind. -/
def ListenerRegistry.register_with {V : Type} (r : ListenerRegistry V) (kind : String)
    (val : V) : Nat × ListenerRegistry V :=
  let id := r.nextId
  let entry := (hmLookup kind r.listeners).getD []
  (id,
    { listeners := hmInsert kind (hmInsert id val entry) r.listeners,
      links := hmInsert id kind r.links,
      nextId := id + 1 })

/-- Model of the wrapped listener stored by the event-hub registry
(src/src/event_hub/registry.rs:65-71): the user callback returns unit, so the
wrapper always returns Ok; the freshly created callback mutex is unpoisoned. -/
def wrappedListener (T : Type) : Listener T :=
  { poisoned := false, cb := fun _ => Except.ok () }

/-- Model of ListenerRegistry::register_listener for the event hub
(src/src/event_hub/registry.rs:58-76): inserts the Ok-wrapped listener. -/
def ListenerRegistry.register_listener {T : Type} (r : ListenerRegistry (Listener T))
    (kind : String) : Nat × ListenerRegistry (Listener T) :=
  r.register_with kind (wrappedListener T)

/-- Model of the Leptos Callback handle stored in the Leptos adapter's
registry (src/src/leptos/registry.rs:61-70): its invocation returns unit and
cannot report failure, so as a registry value it is opaque. -/
structure LCallback where
  unitVal : Unit

/-- Model of ListenerRegistry::register_listener for the Leptos adapter
(src/src/leptos/registry.rs:61-80): inserts the Callback wrapper built around
the user callback. -/
def leptosRegisterListener (r : ListenerRegistry LCallback) (kind : String) :
    Nat × ListenerRegistry LCallback :=
  r.register_with kind { unitVal := () }

/-- Model of the result of operations returning anyhow::Result. Diagnostic
message text of lock failures is abstracted; an aggregate emit failure keeps
its kind tag (the joined kind list for broadcasts) and the collected listener
failure messages. -/
inductive EmitError where
  | lockFailed : EmitError
  | aggregate (tag : String) (failures : List String) : EmitError
  deriving DecidableEq

/-- Model of the listener invocation loop shared by EventHub::emit
(src/src/event_hub/manager.rs:78-83), the new_emitter closure
(src/src/event_hub/manager.rs:318-323) and the new_broadcast_emitter closure
(src/src/event_hub/manager.rs:387-392): every snapshotted listener is called
with a clone of the argument and every failure is pushed onto the error list.
The second component instruments the loop with the invocation trace. -/
def runListeners {T : Type} (v : T) (snapshot : List (Nat × Listener T)) :
    List String × List (Nat × T) :=
  snapshot.foldl
    (fun acc p =>
      match p.2.call v with
      | Except.error e => (acc.1 ++ [e], acc.2 ++ [(p.1, v)])
      | Except.ok _ => (acc.1, acc.2 ++ [(p.1, v)]))
    ([], [])

/-- Model of EventHub::emit (src/src/event_hub/manager.rs:68-93): on lock
poisoning, an error; otherwise the kind's listeners are snapshotted (the read
guard is a temporary dropped at the end of the let statement on lines 69-76),
every listener is invoked, and a non-empty error list yields an aggregate
error tagged with the kind. Returns the result and the invocation trace. -/
def EventHub.emit {T : Type} (poisoned : Bool) (r : ListenerRegistry (Listener T))
    (kind : String) (v : T) : Except EmitError Unit × List (Nat × T) :=
  if poisoned then (Except.error EmitError.lockFailed, [])
  else
    let snapshot := (hmLookup kind r.listeners).getD []
    let out := runListeners v snapshot
    if out.1.isEmpty then (Except.ok (), out.2)
    else (Except.error (EmitError.aggregate kind out.1), out.2)

/-- Model of EventManager::list_event_kinds for EventHub
(src/src/event_hub/manager.rs:118-125). -/
def EventHub.list_event_kinds {T : Type} (poisoned : Bool)
    (r : ListenerRegistry (Listener T)) : Except EmitError (List String) :=
  if poisoned then Except.error EmitError.lockFailed
  else Except.ok (hmKeys r.listeners)

/-- Model of EventManager::has_listeners for EventHub
(src/src/event_hub/manager.rs:141-148): key presence in the forward map. -/
def EventHub.has_listeners {T : Type} (poisoned : Bool)
    (r : ListenerRegistry (Listener T)) (kind : String) : Except EmitError Bool :=
  if poisoned then Except.error EmitError.lockFailed
  else Except.ok (hmLookup kind r.listeners).isSome

/-- Model of EventManager::listeners_count for EventHub
(src/src/event_hub/manager.rs:165-172). -/
def EventHub.listeners_count {T : Type} (poisoned : Bool)
    (r : ListenerRegistry (Listener T)) (kind : String) : Except EmitError Nat :=
  if poisoned then Except.error EmitError.lockFailed
  else Except.ok (((hmLookup kind r.listeners).map List.length).getD 0)

/-- Model of EventManager::clear_listeners for EventHub
(src/src/event_hub/manager.rs:190-198). -/
def EventHub.clear_listeners {T : Type} (poisoned : Bool)
    (r : ListenerRegistry (Listener T)) :
    Except EmitError (ListenerRegistry (Listener T)) :=
  if poisoned then Except.error EmitError.lockFailed
  else Except.ok r.clear

/-- Model of EventManager::add_listener for EventHub
(src/src/event_hub/manager.rs:221-228). -/
def EventHub.add_listener {T : Type} (poisoned : Bool)
    (r : ListenerRegistry (Listener T)) (kind : String) :
    Except EmitError (Nat × ListenerRegistry (Listener T)) :=
  if poisoned then Except.error EmitError.lockFailed
  else Except.ok (r.register_listener kind)

/-- Model of EventManager::remove_listener for EventHub
(src/src/event_hub/manager.rs:252-259). -/
def EventHub.remove_listener {T : Type} (poisoned : Bool)
    (r : ListenerRegistry (Listener T)) (id : Nat) :
    Except EmitError (Bool × ListenerRegistry (Listener T)) :=
  if poisoned then Except.error EmitError.lockFailed
  else Except.ok (r.remove_listener id)

/-- Model of EventManager::remove_listeners_by_kind for EventHub
(src/src/event_hub/manager.rs:277-284). -/
def EventHub.remove_listeners_by_kind {T : Type} (poisoned : Bool)
    (r : ListenerRegistry (Listener T)) (kind : String) :
    Except EmitError (Nat × ListenerRegistry (Listener T)) :=
  if poisoned then Except.error EmitError.lockFailed
  else Except.ok (r.remove_listeners_by_kind kind)

/-- Model of the closure built by EventHub::new_emitter
(src/src/event_hub/manager.rs:302-336): the bound kind is captured, the
registry is consulted at call time (the read guard on lines 306-316 is a
temporary dropped before the loop on lines 318-323), and failures are
aggregated into an error tagged with the kind. -/
def EventHub.newEmitterEmit {T : Type} (kind : String) (poisoned : Bool)
    (r : ListenerRegistry (Listener T)) (v : T) :
    Except EmitError Unit × List (Nat × T) :=
  if poisoned then (Except.error EmitError.lockFailed, [])
  else
    let snapshot := (hmLookup kind r.listeners).getD []
    let out := runListeners v snapshot
    if out.1.isEmpty then (Except.ok (), out.2)
    else (Except.error (EmitError.aggregate kind out.1), out.2)

/-- Model of the kind-set capture of EventHub::new_broadcast_emitter
(src/src/event_hub/manager.rs:355-359): an empty slice is stored as None,
meaning all kinds are resolved at call time. -/
def EventHub.mkBroadcastKinds (ks : List String) : Option (List String) :=
  if ks.isEmpty then none else some ks

/-- Model of the closure built by EventHub::new_broadcast_emitter
(src/src/event_hub/manager.rs:362-402): inside the block on lines 363-385 the
kinds to process are resolved (captured list, or all registry keys when the
captured set was empty), their buckets' listeners are concatenated into a
snapshot, and the guard is dropped at the end of the block; the loop then
invokes every snapshotted listener, aggregating failures under the joined
kind list as tag. -/
def EventHub.newBroadcastEmit {T : Type} (kinds : Option (List String))
    (poisoned : Bool) (r : ListenerRegistry (Listener T)) (v : T) :
    Except EmitError Unit × List (Nat × T) :=
  if poisoned then (Except.error EmitError.lockFailed, [])
  else
    let kindsToProcess :=
      match kinds with
      | some list => list
      | none => hmKeys r.listeners
    let snapshot :=
      kindsToProcess.foldl (fun acc k => acc ++ (hmLookup k r.listeners).getD []) []
    let out := runListeners v snapshot
    if out.1.isEmpty then (Except.ok (), out.2)
    else
      (Except.error (EmitError.aggregate (String.intercalate ", " kindsToProcess) out.1),
        out.2)

/-- Model of the null emitter (src/src/event_hub/manager.rs:411-413): its
listener ignores the argument and returns Ok, so emitting performs no
registry access and no listener invocation. -/
def EventHub.nullEmitterEmit {T : Type} (_v : T) :
    Except EmitError Unit × List (Nat × T) :=
  (Except.ok (), [])

/-- Abstract step of an emit path, used to model the scope of the registry
lock guard relative to listener invocations. -/
inductive LockStep (T : Type) where
  | acquire : LockStep T
  | release : LockStep T
  | invoke (id : Nat) (arg : T) : LockStep T

/-- Scan of a lock trace: true when some invoke step occurs while the lock
depth is positive. -/
def underLockAux {T : Type} : Nat → List (LockStep T) → Bool
  | _, [] => false
  | d, LockStep.acquire :: rest => underLockAux (d + 1) rest
  | d, LockStep.release :: rest => underLockAux (d - 1) rest
  | d, LockStep.invoke _ _ :: rest => decide (0 < d) || underLockAux d rest

/-- Whether a lock trace invokes some listener while the registry lock is
held. -/
def invokesUnderLock {T : Type} (tr : List (LockStep T)) : Bool :=
  underLockAux 0 tr

/-- Lock trace of EventHub::emit (src/src/event_hub/manager.rs:68-93): the
read guard produced on line 71 is a temporary of the let statement on lines
69-76 and is dropped at its end, before the invocation loop on lines 78-83. -/
def EventHub.emitSteps {T : Type} (r : ListenerRegistry (Listener T))
    (kind : String) (v : T) : List (LockStep T) :=
  [LockStep.acquire, LockStep.release] ++
    ((hmLookup kind r.listeners).getD []).map (fun p => LockStep.invoke p.1 v)

/-- Lock trace of the closure built by EventHub::new_emitter
(src/src/event_hub/manager.rs:305-333): the read guard on lines 306-316 is a
temporary dropped before the loop on lines 318-323. -/
def EventHub.newEmitterSteps {T : Type} (kind : String)
    (r : ListenerRegistry (Listener T)) (v : T) : List (LockStep T) :=
  [LockStep.acquire, LockStep.release] ++
    ((hmLookup kind r.listeners).getD []).map (fun p => LockStep.invoke p.1 v)

/-- Lock trace of the closure built by EventHub::new_broadcast_emitter
(src/src/event_hub/manager.rs:362-402): the read guard lives only for the
block on lines 363-385 that computes the snapshot; the loop on lines 387-392
runs after it is dropped. -/
def EventHub.newBroadcastSteps {T : Type} (kinds : Option (List String))
    (r : ListenerRegistry (Listener T)) (v : T) : List (LockStep T) :=
  let kindsToProcess :=
    match kinds with
    | some list => list
    | none => hmKeys r.listeners
  let snapshot :=
    kindsToProcess.foldl (fun acc k => acc ++ (hmLookup k r.listeners).getD []) []
  [LockStep.acquire, LockStep.release] ++
    snapshot.map (fun p => LockStep.invoke p.1 v)

/-- Lock trace of EventHubEmitter::emit as written in
src/src/event_hub/emitter.rs:21-34: the write guard bound on lines 22-25
lives until the end of the function, so the listener loop on lines 27-31 runs
while the lock is held. This file does not match the rest of the crate (its
two-argument constructor and its call to a listeners_mut accessor absent from
registry.rs do not compile against manager.rs and registry.rs). -/
def EventHubEmitter.emitSteps {V T : Type} (r : ListenerRegistry V)
    (kind : String) (v : T) : List (LockStep T) :=
  LockStep.acquire ::
    (((hmLookup kind r.listeners).getD []).map (fun p => LockStep.invoke p.1 v) ++
      [LockStep.release])

/-- Lock trace of EventHubBroadcaster::emit as written in
src/src/event_hub/broadcaster.rs:21-43: the write guard bound on lines 22-25
lives until the end of the function; the kind list is resolved (empty bound
set means all current keys, lines 28-32) and every matching bucket's
listeners are invoked on lines 34-40 while the lock is held. Like emitter.rs,
this file does not compile against the current registry.rs. -/
def EventHubBroadcaster.emitSteps {V T : Type} (r : ListenerRegistry V)
    (kinds : List String) (v : T) : List (LockStep T) :=
  let event_kinds := if kinds.isEmpty then hmKeys r.listeners else kinds
  let snapshot :=
    event_kinds.foldl (fun acc k => acc ++ (hmLookup k r.listeners).getD []) []
  LockStep.acquire ::
    (snapshot.map (fun p => LockStep.invoke p.1 v) ++ [LockStep.release])

/-- Model of LeptosEventChannels::emit (src/src/leptos/manager.rs:19-38): on
lock poisoning an error; otherwise the kind's callbacks are snapshotted
inside a block and run after the guard is dropped. Leptos callbacks cannot
fail, so success carries only the invocation trace. -/
def LeptosEventChannels.emit {T : Type} (poisoned : Bool)
    (r : ListenerRegistry LCallback) (kind : String) (v : T) :
    Except EmitError Unit × List (Nat × T) :=
  if poisoned then (Except.error EmitError.lockFailed, [])
  else
    let snapshot := (hmLookup kind r.listeners).getD []
    (Except.ok (), snapshot.map (fun p => (p.1, v)))

/-- Model of EventManager::remove_listener for LeptosEventChannels
(src/src/leptos/manager.rs:96-103). -/
def LeptosEventChannels.remove_listener (poisoned : Bool)
    (r : ListenerRegistry LCallback) (id : Nat) :
    Except EmitError (Bool × ListenerRegistry LCallback) :=
  if poisoned then Except.error EmitError.lockFailed
  else Except.ok (leptosRemoveListener r id)

/-- Model of the emitter produced by LeptosEventChannels::new_emitter
(src/src/leptos/manager.rs:114-141 wrapped by LeptosChannelEmitter::emit,
src/src/leptos/emitter.rs:18-22): the Callback closure cannot return an
error, so a lock failure is only logged (log::error on line 123) and the
callback returns; LeptosChannelEmitter::emit then returns Ok regardless.
Result components: the emit result, the invocation trace, and the log
messages produced. -/
def LeptosChannelEmitter.emit {T : Type} (kind : String) (poisoned : Bool)
    (r : ListenerRegistry LCallback) (v : T) :
    Except EmitError Unit × List (Nat × T) × List String :=
  if poisoned then
    (Except.ok (), [],
      ["Failed to lock the registry in Leptos event channels"])
  else
    let snapshot := (hmLookup kind r.listeners).getD []
    (Except.ok (), snapshot.map (fun p => (p.1, v)), [])

/-- Model of EventManager::list_event_kinds for LeptosEventChannels
(src/src/leptos/manager.rs:50-57). -/
def LeptosEventChannels.list_event_kinds (poisoned : Bool)
    (r : ListenerRegistry LCallback) : Except EmitError (List String) :=
  if poisoned then Except.error EmitError.lockFailed
  else Except.ok (hmKeys r.listeners)

/-- Model of EventManager::has_listeners for LeptosEventChannels
(src/src/leptos/manager.rs:59-66). -/
def LeptosEventChannels.has_listeners (poisoned : Bool)
    (r : ListenerRegistry LCallback) (kind : String) : Except EmitError Bool :=
  if poisoned then Except.error EmitError.lockFailed
  else Except.ok (hmLookup kind r.listeners).isSome

/-- Model of EventManager::listeners_count for LeptosEventChannels
(src/src/leptos/manager.rs:68-75). -/
def LeptosEventChannels.listeners_count (poisoned : Bool)
    (r : ListenerRegistry LCallback) (kind : String) : Except EmitError Nat :=
  if poisoned then Except.error EmitError.lockFailed
  else Except.ok (((hmLookup kind r.listeners).map List.length).getD 0)

/-- Model of EventManager::clear_listeners for LeptosEventChannels
(src/src/leptos/manager.rs:77-85). -/
def LeptosEventChannels.clear_listeners (poisoned : Bool)
    (r : ListenerRegistry LCallback) :
    Except EmitError (ListenerRegistry LCallback) :=
  if poisoned then Except.error EmitError.lockFailed
  else Except.ok r.clear

/-- Model of EventManager::add_listener for LeptosEventChannels
(src/src/leptos/manager.rs:87-94). -/
def LeptosEventChannels.add_listener (poisoned : Bool)
    (r : ListenerRegistry LCallback) (kind : String) :
    Except EmitError (Nat × ListenerRegistry LCallback) :=
  if poisoned then Except.error EmitError.lockFailed
  else Except.ok (leptosRegisterListener r kind)

/-- Model of EventManager::remove_listeners_by_kind for LeptosEventChannels
(src/src/leptos/manager.rs:105-112). -/
def LeptosEventChannels.remove_listeners_by_kind (poisoned : Bool)
    (r : ListenerRegistry LCallback) (kind : String) :
    Except EmitError (Nat × ListenerRegistry LCallback) :=
  if poisoned then Except.error EmitError.lockFailed
  else Except.ok (r.remove_listeners_by_kind kind)

/-- Model of the kind-set capture of LeptosEventChannels::new_broadcast_emitter
(src/src/leptos/manager.rs:144-148): an empty slice is stored as None, meaning
all kinds are resolved at call time. -/
def LeptosEventChannels.mkBroadcastKinds (ks : List String) : Option (List String) :=
  if ks.isEmpty then none else some ks

/-- Model of the emitter produced by LeptosEventChannels::new_broadcast_emitter
(src/src/leptos/manager.rs:143-185 wrapped by LeptosChannelEmitter::emit,
src/src/leptos/emitter.rs:18-22): the Callback closure cannot return an
error, so a lock failure is only logged (log::error on line 158) and the
callback returns; LeptosChannelEmitter::emit then returns Ok regardless.
Otherwise the captured kind set is resolved at call time (all registry keys
when it was empty, lines 164-167) and the matching buckets' callbacks are
snapshotted and run after the guard block. Result components: the emit
result, the invocation trace, and the log messages produced. -/
def LeptosChannelEmitter.broadcastEmit {T : Type} (kinds : Option (List String))
    (poisoned : Bool) (r : ListenerRegistry LCallback) (v : T) :
    Except EmitError Unit × List (Nat × T) × List String :=
  if poisoned then
    (Except.ok (), [],
      ["Failed to lock the registry in Leptos event channels"])
  else
    let kindsToProcess :=
      match kinds with
      | some list => list
      | none => hmKeys r.listeners
    let snapshot :=
      kindsToProcess.foldl (fun acc k => acc ++ (hmLookup k r.listeners).getD []) []
    (Except.ok (), snapshot.map (fun p => (p.1, v)), [])

/-- Registry lifecycle operation, generic over the stored callback type, for
stating invariants over arbitrary operation sequences. -/
inductive RegOp (V : Type) where
  | register (kind : String) (val : V) : RegOp V
  | remove (id : Nat) : RegOp V
  | removeByKind (kind : String) : RegOp V
  | clearAll : RegOp V

/-- State transition of one registry operation. -/
def RegOp.apply {V : Type} (r : ListenerRegistry V) : RegOp V → ListenerRegistry V
  | RegOp.register kind val => (r.register_with kind val).2
  | RegOp.remove id => (r.remove_listener id).2
  | RegOp.removeByKind kind => (r.remove_listeners_by_kind kind).2
  | RegOp.clearAll => r.clear

/-- Folding a sequence of registry operations from a starting state. -/
def runOps {V : Type} (r : ListenerRegistry V) (ops : List (RegOp V)) :
    ListenerRegistry V :=
  ops.foldl RegOp.apply r

/-- Well-formedness of a registry state: unique keys in every index, all ids
below the fresh counter, and bijective consistency between the reverse index
and the forward map's buckets. All quantifiers are bounded by the finite
index contents, so the predicate is decidable on concrete states. -/
def WF {V : Type} (r : ListenerRegistry V) : Prop :=
  (hmKeys r.listeners).Nodup ∧
  (∀ p ∈ r.listeners, (hmKeys p.2).Nodup) ∧
  (hmKeys r.links).Nodup ∧
  (∀ p ∈ r.links, p.1 < r.nextId) ∧
  (∀ p ∈ r.listeners, ∀ q ∈ p.2, q.1 < r.nextId) ∧
  (∀ p ∈ r.links, p.1 ∈ hmKeys ((hmLookup p.2 r.listeners).getD [])) ∧
  (∀ p ∈ r.listeners, ∀ q ∈ p.2, hmLookup q.1 r.links = some p.1)

instance {V : Type} (r : ListenerRegistry V) : Decidable (WF r) := by
  unfold WF
  infer_instance

/-- Failure messages produced by invoking each listener of a snapshot with a
given argument, in order. -/
def failuresOf {T : Type} (v : T) (snapshot : List (Nat × Listener T)) : List String :=
  snapshot.filterMap
    (fun p =>
      match p.2.call v with
      | Except.error e => some e
      | Except.ok _ => none)

/-- Concrete event-hub registry state holding one registered listener
(id 0) for kind a, used as concrete input in witnesses. -/
def regEx1 : ListenerRegistry (Listener Nat) :=
  (ListenerRegistry.new.register_listener "a").2

/-- Concrete Leptos registry state holding one registered callback (id 0)
for kind a. -/
def lregEx1 : ListenerRegistry LCallback :=
  (leptosRegisterListener ListenerRegistry.new "a").2

/-- Concrete registry state manufactured with a pre-existing empty bucket for
kind b, used to exercise the empty-bucket preservation statement. -/
def regEmptyBucket : ListenerRegistry (Listener Nat) :=
  { listeners := [("b", [])], links := [], nextId := 0 }

/-- Concrete registry state with one always-failing listener (id 5, poisoned
callback mutex) for kind a, used as concrete input in witnesses. -/
def regFail : ListenerRegistry (Listener Nat) :=
  { listeners := [("a", [(5, { poisoned := true, cb := fun _ => Except.ok () })])],
    links := [(5, "a")],
    nextId := 6 }

/-- Concrete operation sequence (register on a, register on b, remove the
second id) used as concrete input in witnesses. -/
def opsEx : List (RegOp (Listener Nat)) :=
  [RegOp.register "a" (wrappedListener Nat),
   RegOp.register "b" (wrappedListener Nat),
   RegOp.remove 1]

/-! Lemmas about the association-list operations. -/

theorem hmLookup_nil {α β : Type _} [DecidableEq α] (k : α) :
    hmLookup k ([] : List (α × β)) = none := rfl

theorem hmLookup_cons {α β : Type _} [DecidableEq α] (k k' : α) (v : β) (m : List (α × β)) :
    hmLookup k ((k', v) :: m) = if k' = k then some v else hmLookup k m := rfl

theorem hmErase_cons {α β : Type _} [DecidableEq α] (k k' : α) (v : β) (m : List (α × β)) :
    hmErase k ((k', v) :: m)
      = if k' = k then hmErase k m else (k', v) :: hmErase k m := rfl

theorem mem_hmErase {α β : Type _} [DecidableEq α] {p : α × β} {k : α} {m : List (α × β)} :
    p ∈ hmErase k m ↔ p ∈ m ∧ p.1 ≠ k := by
  induction m with
  | nil => simp [hmErase]
  | cons q rest ih =>
    by_cases h : q.1 = k
    · have : hmErase k (q :: rest) = hmErase k rest := by
        cases q; simp_all [hmErase_cons]
      rw [this, ih]
      constructor
      · rintro ⟨hp, hne⟩
        exact ⟨List.mem_cons_of_mem _ hp, hne⟩
      · rintro ⟨hp, hne⟩
        rcases List.mem_cons.mp hp with rfl | hp
        · exact absurd h hne
        · exact ⟨hp, hne⟩
    · have : hmErase k (q :: rest) = q :: hmErase k rest := by
        cases q; simp_all [hmErase_cons]
      rw [this]
      simp only [List.mem_cons, ih]
      constructor
      · rintro (rfl | ⟨hp, hne⟩)
        · exact ⟨Or.inl rfl, h⟩
        · exact ⟨Or.inr hp, hne⟩
      · rintro ⟨rfl | hp, hne⟩
        · exact Or.inl rfl
        · exact Or.inr ⟨hp, hne⟩

theorem hmLookup_hmErase_self {α β : Type _} [DecidableEq α] (k : α) (m : List (α × β)) :
    hmLookup k (hmErase k m) = none := by
  induction m with
  | nil => rfl
  | cons q rest ih =>
    cases q with
    | mk k' v =>
      by_cases h : k' = k
      · simpa [hmErase_cons, h] using ih
      · simp [hmErase_cons, h, hmLookup_cons, ih]

theorem hmLookup_hmErase_ne {α β : Type _} [DecidableEq α] {k k' : α} (m : List (α × β))
    (h : k' ≠ k) : hmLookup k' (hmErase k m) = hmLookup k' m := by
  induction m with
  | nil => rfl
  | cons q rest ih =>
    cases q with
    | mk a v =>
      by_cases ha : a = k
      · subst ha
        have hne : a ≠ k' := fun hc => h hc.symm
        simp [hmErase_cons, hmLookup_cons, ih, hne]
      · by_cases hb : a = k'
        · subst hb
          simp [hmErase_cons, ha, hmLookup_cons]
        · simp [hmErase_cons, ha, hmLookup_cons, hb, ih]

theorem hmLookup_hmInsert_self {α β : Type _} [DecidableEq α] (k : α) (v : β)
    (m : List (α × β)) : hmLookup k (hmInsert k v m) = some v := by
  simp [hmInsert, hmLookup_cons]

theorem hmLookup_hmInsert_ne {α β : Type _} [DecidableEq α] {k k' : α} (v : β)
    (m : List (α × β)) (h : k' ≠ k) :
    hmLookup k' (hmInsert k v m) = hmLookup k' m := by
  have hne : k ≠ k' := fun hc => h hc.symm
  simp [hmInsert, hmLookup_cons, hne, hmLookup_hmErase_ne m h]

theorem mem_keys_iff {α β : Type _} {a : α} {m : List (α × β)} :
    a ∈ hmKeys m ↔ ∃ b, (a, b) ∈ m := by
  simp only [hmKeys, List.mem_map]
  constructor
  · rintro ⟨⟨x, y⟩, hm, rfl⟩
    exact ⟨y, hm⟩
  · rintro ⟨b, hb⟩
    exact ⟨(a, b), hb, rfl⟩

theorem hmLookup_eq_none_iff {α β : Type _} [DecidableEq α] {k : α} {m : List (α × β)} :
    hmLookup k m = none ↔ k ∉ hmKeys m := by
  induction m with
  | nil => simp [hmLookup, hmKeys]
  | cons q rest ih =>
    cases q with
    | mk a v =>
      by_cases h : a = k
      · subst h
        simp [hmLookup_cons, hmKeys]
      · have hne : k ≠ a := fun hc => h hc.symm
        simp [hmLookup_cons, h, hmKeys, ih, hne]


theorem mem_of_hmLookup {α β : Type _} [DecidableEq α] {k : α} {b : β}
    {m : List (α × β)} (h : hmLookup k m = some b) : (k, b) ∈ m := by
  induction m with
  | nil => simp [hmLookup] at h
  | cons q rest ih =>
    cases q with
    | mk a v =>
      by_cases ha : a = k
      · subst ha
        rw [hmLookup_cons, if_pos rfl] at h
        cases h
        exact List.mem_cons_self _ _
      · rw [hmLookup_cons, if_neg ha] at h
        exact List.mem_cons_of_mem _ (ih h)

theorem hmLookup_of_mem_nodup {α β : Type _} [DecidableEq α] {p : α × β}
    {m : List (α × β)} (hnd : (hmKeys m).Nodup) (hp : p ∈ m) :
    hmLookup p.1 m = some p.2 := by
  induction m with
  | nil => simp at hp
  | cons q rest ih =>
    rw [hmKeys, List.map_cons, List.nodup_cons] at hnd
    rcases List.mem_cons.mp hp with rfl | hp'
    · rw [hmLookup_cons, if_pos rfl]
    · have hne : q.1 ≠ p.1 := by
        intro hc
        exact hnd.1 (hc ▸ (mem_keys_iff.mpr ⟨p.2, by simpa [hc] using hp'⟩))
      rw [hmLookup_cons, if_neg hne]
      exact ih hnd.2 hp'

theorem not_mem_keys_hmErase_self {α β : Type _} [DecidableEq α] (k : α)
    (m : List (α × β)) : k ∉ hmKeys (hmErase k m) := by
  intro hmem
  rcases mem_keys_iff.mp hmem with ⟨b, hb⟩
  exact (mem_hmErase.mp hb).2 rfl

theorem mem_keys_hmErase_of_ne {α β : Type _} [DecidableEq α] {a k : α}
    (m : List (α × β)) (h : a ≠ k) :
    a ∈ hmKeys (hmErase k m) ↔ a ∈ hmKeys m := by
  simp only [mem_keys_iff]
  constructor
  · rintro ⟨b, hb⟩
    exact ⟨b, (mem_hmErase.mp hb).1⟩
  · rintro ⟨b, hb⟩
    exact ⟨b, mem_hmErase.mpr ⟨hb, h⟩⟩

theorem nodup_keys_hmErase {α β : Type _} [DecidableEq α] (k : α)
    {m : List (α × β)} (hnd : (hmKeys m).Nodup) :
    (hmKeys (hmErase k m)).Nodup := by
  induction m with
  | nil => simp [hmErase, hmKeys]
  | cons q rest ih =>
    rw [hmKeys, List.map_cons, List.nodup_cons] at hnd
    by_cases h : q.1 = k
    · have : hmErase k (q :: rest) = hmErase k rest := by
        cases q; simp_all [hmErase_cons]
      rw [this]
      exact ih hnd.2
    · have : hmErase k (q :: rest) = q :: hmErase k rest := by
        cases q; simp_all [hmErase_cons]
      rw [this, hmKeys, List.map_cons, List.nodup_cons]
      refine ⟨?_, ih hnd.2⟩
      intro hc
      exact hnd.1 ((mem_keys_hmErase_of_ne rest h).mp hc)

theorem nodup_keys_hmInsert {α β : Type _} [DecidableEq α] (k : α) (v : β)
    {m : List (α × β)} (hnd : (hmKeys m).Nodup) :
    (hmKeys (hmInsert k v m)).Nodup := by
  rw [hmInsert, hmKeys, List.map_cons, List.nodup_cons]
  exact ⟨not_mem_keys_hmErase_self k m, nodup_keys_hmErase k hnd⟩

theorem mem_hmInsert {α β : Type _} [DecidableEq α] {p : α × β} {k : α} {v : β}
    {m : List (α × β)} :
    p ∈ hmInsert k v m ↔ p = (k, v) ∨ (p ∈ m ∧ p.1 ≠ k) := by
  rw [hmInsert, List.mem_cons, mem_hmErase]

theorem hmLookup_purgeFold {α β γ : Type _} [DecidableEq α] (x : α)
    (bucket : List (α × γ)) (links : List (α × β)) :
    hmLookup x (bucket.foldl (fun ls q => hmErase q.1 ls) links)
      = if x ∈ hmKeys bucket then none else hmLookup x links := by
  induction bucket generalizing links with
  | nil => simp [hmKeys]
  | cons q rest ih =>
    rw [List.foldl_cons, ih]
    simp only [hmKeys, List.map_cons, List.mem_cons]
    by_cases hx : x ∈ List.map Prod.fst rest
    · simp [hmKeys] at hx
      simp [hmKeys, hx]
    · by_cases hq : x = q.1
      · subst hq
        simp [hmKeys] at hx
        simp [hmKeys, hx, hmLookup_hmErase_self]
      · have hne : q.1 ≠ x := fun hc => hq hc.symm
        simp [hmKeys] at hx
        simp [hmKeys, hx, hmLookup_hmErase_ne links hq, hq]

theorem mem_purgeFold {α β γ : Type _} [DecidableEq α] {p : α × β}
    (bucket : List (α × γ)) (links : List (α × β))
    (h : p ∈ bucket.foldl (fun ls q => hmErase q.1 ls) links) :
    p ∈ links ∧ p.1 ∉ hmKeys bucket := by
  induction bucket generalizing links with
  | nil => simpa [hmKeys] using h
  | cons q rest ih =>
    rw [List.foldl_cons] at h
    rcases ih _ h with ⟨hmem, hnk⟩
    rcases mem_hmErase.mp hmem with ⟨hl, hne⟩
    refine ⟨hl, ?_⟩
    simp only [hmKeys, List.map_cons, List.mem_cons]
    rintro (hc | hc)
    · exact hne hc
    · exact hnk (by simpa [hmKeys] using hc)

theorem nodup_keys_purgeFold {α β γ : Type _} [DecidableEq α]
    (bucket : List (α × γ)) {links : List (α × β)}
    (hnd : (hmKeys links).Nodup) :
    (hmKeys (bucket.foldl (fun ls q => hmErase q.1 ls) links)).Nodup := by
  induction bucket generalizing links with
  | nil => simpa using hnd
  | cons q rest ih =>
    rw [List.foldl_cons]
    exact ih (nodup_keys_hmErase q.1 hnd)

/-! Lemmas about the listener invocation loop. -/

theorem runListeners_eq {T : Type} (v : T) (snapshot : List (Nat × Listener T)) :
    runListeners v snapshot
      = (failuresOf v snapshot, snapshot.map (fun p => (p.1, v))) := by
  have aux : ∀ (l : List (Nat × Listener T)) (errs : List String) (tr : List (Nat × T)),
      l.foldl
        (fun acc p =>
          match p.2.call v with
          | Except.error e => (acc.1 ++ [e], acc.2 ++ [(p.1, v)])
          | Except.ok _ => (acc.1, acc.2 ++ [(p.1, v)]))
        (errs, tr)
        = (errs ++ failuresOf v l, tr ++ l.map (fun p => (p.1, v))) := by
    intro l
    induction l with
    | nil =>
      intro errs tr
      simp [failuresOf]
    | cons p rest ih =>
      intro errs tr
      cases hc : p.2.call v with
      | error e =>
        simp [failuresOf, hc, ih, List.filterMap_cons]
      | ok u =>
        simp [failuresOf, hc, ih, List.filterMap_cons]
  simpa [runListeners, failuresOf] using aux snapshot [] []

theorem broadcast_snapshot_eq {T : Type} (kinds : List String)
    (r : ListenerRegistry (Listener T)) :
    kinds.foldl (fun acc k => acc ++ (hmLookup k r.listeners).getD []) []
      = (kinds.map (fun k => (hmLookup k r.listeners).getD [])).flatten := by
  have aux : ∀ (ks : List String) (acc : List (Nat × Listener T)),
      ks.foldl (fun acc k => acc ++ (hmLookup k r.listeners).getD []) acc
        = acc ++ (ks.map (fun k => (hmLookup k r.listeners).getD [])).flatten := by
    intro ks
    induction ks with
    | nil => intro acc; simp
    | cons k rest ih =>
      intro acc
      simp [ih, List.flatten]
  simpa using aux kinds []

/-! Lemmas about lock traces. -/

theorem underLockAux_invokes_at_zero {T : Type} (l : List (Nat × Listener T)) (v : T) :
    underLockAux 0 (l.map (fun p => LockStep.invoke p.1 v)) = false := by
  induction l with
  | nil => rfl
  | cons p rest ih => simpa [underLockAux] using ih

theorem invokesUnderLock_snapshot_path {T : Type} (l : List (Nat × Listener T)) (v : T) :
    invokesUnderLock
      ([LockStep.acquire, LockStep.release] ++ l.map (fun p => LockStep.invoke p.1 v))
      = false := by
  simpa [invokesUnderLock, underLockAux] using underLockAux_invokes_at_zero l v

/-! Preservation of registry well-formedness by every lifecycle operation. -/

theorem WF_new {V : Type} : WF (ListenerRegistry.new (V := V)) := by
  simp [WF, ListenerRegistry.new, hmKeys]

theorem WF_clear {V : Type} (r : ListenerRegistry V) : WF r.clear := by
  simp [WF, ListenerRegistry.clear, hmKeys]

theorem WF_register {V : Type} {r : ListenerRegistry V} (hwf : WF r)
    (kind : String) (val : V) : WF (r.register_with kind val).2 := by
  obtain ⟨h1, h2, h3, h4, h5, h6, h7⟩ := hwf
  have entry_facts :
      (hmKeys ((hmLookup kind r.listeners).getD [])).Nodup ∧
      ∀ q ∈ (hmLookup kind r.listeners).getD [],
        q.1 < r.nextId ∧ hmLookup q.1 r.links = some kind := by
    cases hb : hmLookup kind r.listeners with
    | none => simp [hmKeys]
    | some b =>
      have hmem : (kind, b) ∈ r.listeners := mem_of_hmLookup hb
      exact ⟨h2 _ hmem, fun q hq => ⟨h5 _ hmem q hq, h7 _ hmem q hq⟩⟩
  obtain ⟨hend, hentry⟩ := entry_facts
  have hfreshlink : ∀ p ∈ r.links, p.1 ≠ r.nextId :=
    fun p hp hc => absurd (hc ▸ h4 p hp) (lt_irrefl _)
  refine ⟨?_, ?_, ?_, ?_, ?_, ?_, ?_⟩ <;>
    simp only [ListenerRegistry.register_with]
  · exact nodup_keys_hmInsert _ _ h1
  · intro p hp
    rcases mem_hmInsert.mp hp with rfl | ⟨hp', _⟩
    · exact nodup_keys_hmInsert _ _ hend
    · exact h2 _ hp'
  · exact nodup_keys_hmInsert _ _ h3
  · intro p hp
    rcases mem_hmInsert.mp hp with rfl | ⟨hp', _⟩
    · exact Nat.lt_succ_self _
    · exact Nat.lt_succ_of_lt (h4 _ hp')
  · intro p hp q hq
    rcases mem_hmInsert.mp hp with rfl | ⟨hp', _⟩
    · rcases mem_hmInsert.mp hq with rfl | ⟨hq', _⟩
      · exact Nat.lt_succ_self _
      · exact Nat.lt_succ_of_lt (hentry q hq').1
    · exact Nat.lt_succ_of_lt (h5 _ hp' q hq)
  · intro p hp
    rcases mem_hmInsert.mp hp with rfl | ⟨hp', hpne⟩
    · refine mem_keys_iff.mpr ⟨val, ?_⟩
      simp [hmInsert, hmLookup_cons]
    · by_cases hk : p.2 = kind
      · rw [hk, hmLookup_hmInsert_self]
        have hold : p.1 ∈ hmKeys ((hmLookup kind r.listeners).getD []) := by
          have := h6 _ hp'
          rwa [hk] at this
        simp only [Option.getD_some, hmInsert, hmKeys, List.map_cons, List.mem_cons]
        exact Or.inr ((mem_keys_hmErase_of_ne _ hpne).mpr hold)
      · rw [hmLookup_hmInsert_ne _ _ hk]
        exact h6 _ hp'
  · intro p hp q hq
    rcases mem_hmInsert.mp hp with rfl | ⟨hp', hpne⟩
    · rcases mem_hmInsert.mp hq with rfl | ⟨hq', hqne⟩
      · exact hmLookup_hmInsert_self _ _ _
      · rw [hmLookup_hmInsert_ne _ _ hqne]
        exact (hentry q hq').2
    · have hqlt : q.1 < r.nextId := h5 _ hp' q hq
      have hqne : q.1 ≠ r.nextId := fun hc => absurd (hc ▸ hqlt) (lt_irrefl _)
      rw [hmLookup_hmInsert_ne _ _ hqne]
      exact h7 _ hp' q hq

theorem WF_remove {V : Type} {r : ListenerRegistry V} (hwf : WF r) (id : Nat) :
    WF (r.remove_listener id).2 := by
  obtain ⟨h1, h2, h3, h4, h5, h6, h7⟩ := hwf
  cases hl : hmLookup id r.links with
  | none =>
    have hstate : (r.remove_listener id).2 = r := by
      simp [ListenerRegistry.remove_listener, hl]
    rw [hstate]
    exact ⟨h1, h2, h3, h4, h5, h6, h7⟩
  | some kind =>
    have hmemlink : (id, kind) ∈ r.links := mem_of_hmLookup hl
    cases hb : hmLookup kind r.listeners with
    | none =>
      exfalso
      have := h6 _ hmemlink
      rw [hb] at this
      simp [hmKeys] at this
    | some bucket =>
      have hmembucket : (kind, bucket) ∈ r.listeners := mem_of_hmLookup hb
      by_cases hempty : (hmErase id bucket).isEmpty = true
      · have hstate : (r.remove_listener id).2 =
            { r with listeners := hmErase kind r.listeners,
                     links := hmErase id r.links } := by
          simp [ListenerRegistry.remove_listener, hl, hb, hempty]
        rw [hstate]
        refine ⟨?_, ?_, ?_, ?_, ?_, ?_, ?_⟩
        · exact nodup_keys_hmErase _ h1
        · intro p hp
          exact h2 _ (mem_hmErase.mp hp).1
        · exact nodup_keys_hmErase _ h3
        · intro p hp
          exact h4 _ (mem_hmErase.mp hp).1
        · intro p hp q hq
          exact h5 _ (mem_hmErase.mp hp).1 q hq
        · intro p hp
          obtain ⟨hp', hpne⟩ := mem_hmErase.mp hp
          by_cases hk : p.2 = kind
          · exfalso
            have hkb : p.1 ∈ hmKeys bucket := by
              have := h6 _ hp'
              rw [hk, hb] at this
              simpa using this
            have hin : p.1 ∈ hmKeys (hmErase id bucket) :=
              (mem_keys_hmErase_of_ne bucket hpne).mpr hkb
            rw [List.isEmpty_iff] at hempty
            rw [hempty] at hin
            simp [hmKeys] at hin
          · show p.1 ∈ hmKeys ((hmLookup p.2 (hmErase kind r.listeners)).getD [])
            rw [hmLookup_hmErase_ne _ hk]
            exact h6 _ hp'
        · intro p hp q hq
          obtain ⟨hp', hpk⟩ := mem_hmErase.mp hp
          have hres := h7 _ hp' q hq
          have hqne : q.1 ≠ id := by
            intro hc
            rw [hc, hl] at hres
            cases hres
            exact hpk rfl
          show hmLookup q.1 (hmErase id r.links) = some p.1
          rw [hmLookup_hmErase_ne _ hqne]
          exact hres
      · have hstate : (r.remove_listener id).2 =
            { r with listeners := hmInsert kind (hmErase id bucket) r.listeners,
                     links := hmErase id r.links } := by
          simp [ListenerRegistry.remove_listener, hl, hb, hempty]
        rw [hstate]
        refine ⟨?_, ?_, ?_, ?_, ?_, ?_, ?_⟩
        · exact nodup_keys_hmInsert _ _ h1
        · intro p hp
          rcases mem_hmInsert.mp hp with rfl | ⟨hp', _⟩
          · exact nodup_keys_hmErase _ (h2 _ hmembucket)
          · exact h2 _ hp'
        · exact nodup_keys_hmErase _ h3
        · intro p hp
          exact h4 _ (mem_hmErase.mp hp).1
        · intro p hp q hq
          rcases mem_hmInsert.mp hp with rfl | ⟨hp', _⟩
          · exact h5 _ hmembucket q (mem_hmErase.mp hq).1
          · exact h5 _ hp' q hq
        · intro p hp
          obtain ⟨hp', hpne⟩ := mem_hmErase.mp hp
          by_cases hk : p.2 = kind
          · show p.1 ∈ hmKeys
              ((hmLookup p.2 (hmInsert kind (hmErase id bucket) r.listeners)).getD [])
            rw [hk, hmLookup_hmInsert_self]
            have hkb : p.1 ∈ hmKeys bucket := by
              have := h6 _ hp'
              rw [hk, hb] at this
              simpa using this
            simpa using (mem_keys_hmErase_of_ne bucket hpne).mpr hkb
          · show p.1 ∈ hmKeys
              ((hmLookup p.2 (hmInsert kind (hmErase id bucket) r.listeners)).getD [])
            rw [hmLookup_hmInsert_ne _ _ hk]
            exact h6 _ hp'
        · intro p hp q hq
          rcases mem_hmInsert.mp hp with rfl | ⟨hp', hpk⟩
          · obtain ⟨hq', hqne⟩ := mem_hmErase.mp hq
            show hmLookup q.1 (hmErase id r.links) = some kind
            rw [hmLookup_hmErase_ne _ hqne]
            exact h7 _ hmembucket q hq'
          · have hres := h7 _ hp' q hq
            have hqne : q.1 ≠ id := by
              intro hc
              rw [hc, hl] at hres
              cases hres
              exact hpk rfl
            show hmLookup q.1 (hmErase id r.links) = some p.1
            rw [hmLookup_hmErase_ne _ hqne]
            exact hres

theorem WF_removeByKind {V : Type} {r : ListenerRegistry V} (hwf : WF r)
    (kind : String) : WF (r.remove_listeners_by_kind kind).2 := by
  obtain ⟨h1, h2, h3, h4, h5, h6, h7⟩ := hwf
  cases hb : hmLookup kind r.listeners with
  | none =>
    have hstate : (r.remove_listeners_by_kind kind).2 = r := by
      simp [ListenerRegistry.remove_listeners_by_kind, hb]
    rw [hstate]
    exact ⟨h1, h2, h3, h4, h5, h6, h7⟩
  | some bucket =>
    have hmembucket : (kind, bucket) ∈ r.listeners := mem_of_hmLookup hb
    have hstate : (r.remove_listeners_by_kind kind).2 =
        { r with listeners := hmErase kind r.listeners,
                 links := bucket.foldl (fun ls q => hmErase q.1 ls) r.links } := by
      simp [ListenerRegistry.remove_listeners_by_kind, hb]
    rw [hstate]
    refine ⟨?_, ?_, ?_, ?_, ?_, ?_, ?_⟩
    · exact nodup_keys_hmErase _ h1
    · intro p hp
      exact h2 _ (mem_hmErase.mp hp).1
    · exact nodup_keys_purgeFold _ h3
    · intro p hp
      exact h4 _ (mem_purgeFold _ _ hp).1
    · intro p hp q hq
      exact h5 _ (mem_hmErase.mp hp).1 q hq
    · intro p hp
      obtain ⟨hp', hnk⟩ := mem_purgeFold _ _ hp
      by_cases hk : p.2 = kind
      · exfalso
        have := h6 _ hp'
        rw [hk, hb] at this
        exact hnk (by simpa using this)
      · show p.1 ∈ hmKeys ((hmLookup p.2 (hmErase kind r.listeners)).getD [])
        rw [hmLookup_hmErase_ne _ hk]
        exact h6 _ hp'
    · intro p hp q hq
      obtain ⟨hp', hpk⟩ := mem_hmErase.mp hp
      have hres := h7 _ hp' q hq
      have hqnk : q.1 ∉ hmKeys bucket := by
        intro hqin
        rcases mem_keys_iff.mp hqin with ⟨w, hw⟩
        have := h7 _ hmembucket _ hw
        rw [hres] at this
        cases this
        exact hpk rfl
      show hmLookup q.1 (bucket.foldl (fun ls q => hmErase q.1 ls) r.links) = some p.1
      rw [hmLookup_purgeFold, if_neg hqnk]
      exact hres

theorem WF_apply {V : Type} {r : ListenerRegistry V} (hwf : WF r) (op : RegOp V) :
    WF (RegOp.apply r op) := by
  cases op with
  | register kind val => exact WF_register hwf kind val
  | remove id => exact WF_remove hwf id
  | removeByKind kind => exact WF_removeByKind hwf kind
  | clearAll => exact WF_clear r

theorem WF_runOps {V : Type} (ops : List (RegOp V)) {r : ListenerRegistry V}
    (hwf : WF r) : WF (runOps r ops) := by
  induction ops generalizing r with
  | nil => simpa [runOps] using hwf
  | cons op rest ih =>
    simpa [runOps] using ih (WF_apply hwf op)

/-! Persistence of the unregistered status of an id below the fresh counter. -/

theorem unregistered_persists {V : Type} {r : ListenerRegistry V} {id : Nat}
    (hlt : id < r.nextId) (hnone : hmLookup id r.links = none) (op : RegOp V) :
    id < (RegOp.apply r op).nextId ∧ hmLookup id (RegOp.apply r op).links = none := by
  cases op with
  | register kind val =>
    refine ⟨Nat.lt_succ_of_lt hlt, ?_⟩
    have hne : id ≠ r.nextId := fun hc => absurd (hc ▸ hlt) (lt_irrefl _)
    show hmLookup id (hmInsert r.nextId kind r.links) = none
    rw [hmLookup_hmInsert_ne _ _ hne]
    exact hnone
  | remove id' =>
    have herase : ∀ x : Nat, hmLookup id (hmErase x r.links) = none := by
      intro x
      by_cases hx : id = x
      · subst hx
        exact hmLookup_hmErase_self id r.links
      · rw [hmLookup_hmErase_ne _ hx]
        exact hnone
    cases hl : hmLookup id' r.links with
    | none => simpa [RegOp.apply, ListenerRegistry.remove_listener, hl] using ⟨hlt, hnone⟩
    | some kind =>
      cases hb : hmLookup kind r.listeners with
      | none =>
        simpa [RegOp.apply, ListenerRegistry.remove_listener, hl, hb] using
          ⟨hlt, herase id'⟩
      | some bucket =>
        by_cases hempty : (hmErase id' bucket).isEmpty = true
        · simpa [RegOp.apply, ListenerRegistry.remove_listener, hl, hb, hempty] using
            ⟨hlt, herase id'⟩
        · simpa [RegOp.apply, ListenerRegistry.remove_listener, hl, hb, hempty] using
            ⟨hlt, herase id'⟩
  | removeByKind kind =>
    cases hb : hmLookup kind r.listeners with
    | none =>
      simpa [RegOp.apply, ListenerRegistry.remove_listeners_by_kind, hb] using
        ⟨hlt, hnone⟩
    | some bucket =>
      refine ⟨by simpa [RegOp.apply, ListenerRegistry.remove_listeners_by_kind, hb]
        using hlt, ?_⟩
      show hmLookup id
        ((r.remove_listeners_by_kind kind).2).links = none
      have hstate : ((r.remove_listeners_by_kind kind).2).links =
          bucket.foldl (fun ls q => hmErase q.1 ls) r.links := by
        simp [ListenerRegistry.remove_listeners_by_kind, hb]
      rw [hstate, hmLookup_purgeFold]
      by_cases hx : id ∈ hmKeys bucket
      · simp [hx]
      · simp [hx, hnone]
  | clearAll =>
    exact ⟨hlt, by simp [RegOp.apply, ListenerRegistry.clear, hmLookup]⟩

theorem unregistered_persists_runOps {V : Type} (ops : List (RegOp V))
    {r : ListenerRegistry V} {id : Nat}
    (hlt : id < r.nextId) (hnone : hmLookup id r.links = none) :
    hmLookup id (runOps r ops).links = none := by
  induction ops generalizing r with
  | nil => simpa [runOps] using hnone
  | cons op rest ih =>
    obtain ⟨hlt', hnone'⟩ := unregistered_persists hlt hnone op
    simpa [runOps] using ih hlt' hnone'

/-! Helper characterizations of the emit paths. -/

theorem emit_trace_eq {T : Type} (r : ListenerRegistry (Listener T))
    (kind : String) (v : T) :
    (EventHub.emit false r kind v).2
      = ((hmLookup kind r.listeners).getD []).map (fun p => (p.1, v)) := by
  by_cases hf : failuresOf v ((hmLookup kind r.listeners).getD []) = [] <;>
    simp [EventHub.emit, runListeners_eq, hf, List.isEmpty_iff]

theorem emit_result_eq {T : Type} (r : ListenerRegistry (Listener T))
    (kind : String) (v : T) :
    (EventHub.emit false r kind v).1
      = (if failuresOf v ((hmLookup kind r.listeners).getD []) = []
         then Except.ok ()
         else Except.error (EmitError.aggregate kind
           (failuresOf v ((hmLookup kind r.listeners).getD [])))) := by
  by_cases hf : failuresOf v ((hmLookup kind r.listeners).getD []) = [] <;>
    simp [EventHub.emit, runListeners_eq, hf, List.isEmpty_iff]

/-- C1: EventHub::emit with N listeners registered for the kind invokes all N
listeners exactly once each with a clone of the value, in snapshot order and
regardless of failures; if the set of failures is non-empty the result is an
aggregate error tagged with the kind naming exactly those failures in order,
and otherwise, including the case of a kind with no registered listeners, the
result is Ok. -/
theorem emit_delivers_all_and_aggregates {T : Type}
    (r : ListenerRegistry (Listener T)) (kind : String) (v : T) :
    (EventHub.emit false r kind v).2
        = ((hmLookup kind r.listeners).getD []).map (fun p => (p.1, v)) ∧
    (EventHub.emit false r kind v).1
        = (if failuresOf v ((hmLookup kind r.listeners).getD []) = []
           then Except.ok ()
           else Except.error (EmitError.aggregate kind
             (failuresOf v ((hmLookup kind r.listeners).getD [])))) :=
  ⟨emit_trace_eq r kind v, emit_result_eq r kind v⟩

/-- C2: the emitter produced by EventHub::new_emitter has, for every lock
state, call-time registry state and value, exactly the behaviour of
EventHub::emit on the bound kind evaluated against the call-time state
(result and invocation trace); in particular a listener registered for the
kind after the emitter was created is still invoked by a subsequent call on
the post-registration state, and failures aggregate into the same kind-tagged
error. -/
theorem new_emitter_matches_hub_emit {T : Type} (kind : String) (poisoned : Bool)
    (r : ListenerRegistry (Listener T)) (v : T) :
    EventHub.newEmitterEmit kind poisoned r v = EventHub.emit poisoned r kind v ∧
    ((r.register_listener kind).1, v) ∈
      (EventHub.newEmitterEmit kind false (r.register_listener kind).2 v).2 := by
  constructor
  · rfl
  · have heq : EventHub.newEmitterEmit kind false (r.register_listener kind).2 v
        = EventHub.emit false (r.register_listener kind).2 kind v := rfl
    rw [heq, emit_trace_eq]
    have hlk : hmLookup kind ((r.register_listener kind).2).listeners
        = some (hmInsert r.nextId (wrappedListener T)
            ((hmLookup kind r.listeners).getD [])) := by
      simp [ListenerRegistry.register_listener, ListenerRegistry.register_with,
        hmLookup_hmInsert_self]
    have hid : (r.register_listener kind).1 = r.nextId := rfl
    rw [hid, hlk]
    simp [hmInsert]

/-- C4: starting from an empty registry, after every sequence of lifecycle
operations (register, remove by id, remove by kind, clear) the two indices
are bijectively consistent: every id in the reverse index occurs in the
forward bucket of the kind it maps to, and every id in a forward bucket maps
back to exactly that kind in the reverse index. -/
theorem registry_indices_consistent {V : Type} (ops : List (RegOp V)) :
    (∀ p ∈ (runOps ListenerRegistry.new ops).links,
        p.1 ∈ hmKeys
          ((hmLookup p.2 (runOps ListenerRegistry.new ops).listeners).getD [])) ∧
    (∀ p ∈ (runOps ListenerRegistry.new ops).listeners, ∀ q ∈ p.2,
        hmLookup q.1 (runOps ListenerRegistry.new ops).links = some p.1) := by
  have h := WF_runOps ops (WF_new (V := V))
  exact ⟨h.2.2.2.2.2.1, h.2.2.2.2.2.2⟩

theorem registry_indices_consistent_witness :
    ((0 : Nat), "a") ∈ (runOps ListenerRegistry.new opsEx).links ∧
    (0 : Nat) ∈ hmKeys
      ((hmLookup "a" (runOps ListenerRegistry.new opsEx).listeners).getD []) := by
  have hm : ((0 : Nat), "a") ∈ (runOps ListenerRegistry.new opsEx).links := by
    have : (runOps ListenerRegistry.new opsEx).links = [(0, "a")] := by decide
    rw [this]
    exact List.mem_singleton.mpr rfl
  exact ⟨hm, (registry_indices_consistent opsEx).1 _ hm⟩

/-- C8: remove_listeners_by_kind removes the whole bucket for the kind and
returns how many listeners it held (0 when absent); immediately afterwards
has_listeners is false and listeners_count is 0 for that kind, and every id
the bucket contained is purged from the reverse index. -/
theorem remove_by_kind_purges {T : Type} (r : ListenerRegistry (Listener T))
    (kind : String) :
    (r.remove_listeners_by_kind kind).1
        = ((hmLookup kind r.listeners).map List.length).getD 0 ∧
    EventHub.has_listeners false (r.remove_listeners_by_kind kind).2 kind
        = Except.ok false ∧
    EventHub.listeners_count false (r.remove_listeners_by_kind kind).2 kind
        = Except.ok 0 ∧
    ∀ p ∈ (hmLookup kind r.listeners).getD [],
      hmLookup p.1 ((r.remove_listeners_by_kind kind).2).links = none := by
  cases hb : hmLookup kind r.listeners with
  | none =>
    refine ⟨?_, ?_, ?_, ?_⟩ <;>
      simp [ListenerRegistry.remove_listeners_by_kind, hb,
        EventHub.has_listeners, EventHub.listeners_count]
  | some bucket =>
    refine ⟨?_, ?_, ?_, ?_⟩
    · simp [ListenerRegistry.remove_listeners_by_kind, hb]
    · have hstate : ((r.remove_listeners_by_kind kind).2).listeners
          = hmErase kind r.listeners := by
        simp [ListenerRegistry.remove_listeners_by_kind, hb]
      simp [EventHub.has_listeners, hstate, hmLookup_hmErase_self]
    · have hstate : ((r.remove_listeners_by_kind kind).2).listeners
          = hmErase kind r.listeners := by
        simp [ListenerRegistry.remove_listeners_by_kind, hb]
      simp [EventHub.listeners_count, hstate, hmLookup_hmErase_self]
    · intro p hp
      simp only [Option.getD_some] at hp
      have hstate : ((r.remove_listeners_by_kind kind).2).links
          = bucket.foldl (fun ls q => hmErase q.1 ls) r.links := by
        simp [ListenerRegistry.remove_listeners_by_kind, hb]
      rw [hstate, hmLookup_purgeFold, if_pos]
      exact mem_keys_iff.mpr ⟨p.2, hp⟩

theorem remove_by_kind_purges_witness :
    ((0 : Nat), wrappedListener Nat) ∈ (hmLookup "a" regEx1.listeners).getD [] ∧
    hmLookup (0 : Nat) ((regEx1.remove_listeners_by_kind "a").2).links = none := by
  have hm : ((0 : Nat), wrappedListener Nat) ∈ (hmLookup "a" regEx1.listeners).getD [] := by
    have hb : (hmLookup "a" regEx1.listeners).getD [] = [(0, wrappedListener Nat)] := rfl
    rw [hb]
    exact List.mem_singleton.mpr rfl
  exact ⟨hm, (remove_by_kind_purges regEx1 "a").2.2.2 _ hm⟩

theorem snd_ite_pair {A B : Type _} (c : Prop) [Decidable c] (x y : A) (b : B) :
    (if c then (x, b) else (y, b)).2 = b := by
  split <;> rfl

theorem broadcast_trace_eq {T : Type} (kindsOpt : Option (List String))
    (r : ListenerRegistry (Listener T)) (v : T) :
    (EventHub.newBroadcastEmit kindsOpt false r v).2
      = ((kindsOpt.getD (hmKeys r.listeners)).map
          (fun k => ((hmLookup k r.listeners).getD []).map
            (fun p : Nat × Listener T => (p.1, v)))).flatten := by
  cases kindsOpt with
  | some list =>
    simp [EventHub.newBroadcastEmit, runListeners_eq, broadcast_snapshot_eq,
      List.map_flatten, Function.comp_def, snd_ite_pair]
  | none =>
    simp [EventHub.newBroadcastEmit, runListeners_eq, broadcast_snapshot_eq,
      List.map_flatten, Function.comp_def, snd_ite_pair]

/-- C6: a broadcaster built from a non-empty kind list invokes exactly the
listeners of the listed kinds, the union taken across those kinds in order
with each listener invoked once per matching kind and kinds without a bucket
contributing nothing, and every invoked listener id belongs to a listed
kind's bucket; a broadcaster built from an empty kind list invokes the
listeners of all kinds present in the registry at the time of the call,
re-resolved on every call. -/
theorem broadcaster_invokes_union {T : Type} (ks : List String)
    (r : ListenerRegistry (Listener T)) (v : T) :
    (EventHub.newBroadcastEmit (EventHub.mkBroadcastKinds ks) false r v).2
      = ((if ks.isEmpty then hmKeys r.listeners else ks).map
          (fun k => ((hmLookup k r.listeners).getD []).map
            (fun p : Nat × Listener T => (p.1, v)))).flatten ∧
    ∀ p ∈ (EventHub.newBroadcastEmit (EventHub.mkBroadcastKinds ks) false r v).2,
      ∃ k, k ∈ (if ks.isEmpty then hmKeys r.listeners else ks) ∧
        p.1 ∈ hmKeys ((hmLookup k r.listeners).getD []) := by
  have htr := broadcast_trace_eq (EventHub.mkBroadcastKinds ks) r v
  have hresolved :
      (EventHub.mkBroadcastKinds ks).getD (hmKeys r.listeners)
        = (if ks.isEmpty then hmKeys r.listeners else ks) := by
    by_cases hk : ks.isEmpty <;> simp [EventHub.mkBroadcastKinds, hk]
  rw [hresolved] at htr
  refine ⟨htr, ?_⟩
  intro p hp
  rw [htr] at hp
  rcases List.mem_flatten.mp hp with ⟨l, hl, hpl⟩
  rcases List.mem_map.mp hl with ⟨k, hk, rfl⟩
  rcases List.mem_map.mp hpl with ⟨q, hq, rfl⟩
  exact ⟨k, hk, mem_keys_iff.mpr ⟨q.2, hq⟩⟩

theorem broadcaster_invokes_union_witness :
    ((0 : Nat), (3 : Nat)) ∈
      (EventHub.newBroadcastEmit (EventHub.mkBroadcastKinds ["a"]) false regEx1 3).2 ∧
    ∃ k, k ∈ (if (["a"] : List String).isEmpty then hmKeys regEx1.listeners else ["a"]) ∧
      (0 : Nat) ∈ hmKeys ((hmLookup k regEx1.listeners).getD []) := by
  have hm : ((0 : Nat), (3 : Nat)) ∈
      (EventHub.newBroadcastEmit (EventHub.mkBroadcastKinds ["a"]) false regEx1 3).2 := by
    have htr :
        (EventHub.newBroadcastEmit (EventHub.mkBroadcastKinds ["a"]) false regEx1 3).2
          = [((0 : Nat), (3 : Nat))] := rfl
    rw [htr]
    exact List.mem_singleton.mpr rfl
  exact ⟨hm, (broadcaster_invokes_union ["a"] regEx1 3).2 _ hm⟩

/-- C10: every callback registered through the event hub's register_listener
is stored wrapped so its invocation returns Ok for every argument, so an
individual listener invocation can only fail through poisoning of that
listener's own callback mutex; consequently, when no listener of the kind has
a poisoned callback mutex, the aggregate-error branch of EventHub::emit is
unreachable and emit returns Ok whenever the registry read lock is
acquired. -/
theorem registered_wrapped_emit_ok {T : Type} (r : ListenerRegistry (Listener T))
    (kind : String) (v : T) :
    (∀ u : T, (wrappedListener T).call u = Except.ok ()) ∧
    (hmLookup (r.register_listener kind).1
        ((hmLookup kind ((r.register_listener kind).2).listeners).getD [])
      = some (wrappedListener T)) ∧
    ((∀ p ∈ (hmLookup kind r.listeners).getD [],
        p.2.poisoned = false ∧ ∀ u : T, p.2.cb u = Except.ok ()) →
      (EventHub.emit false r kind v).1 = Except.ok ()) := by
  refine ⟨fun u => rfl, ?_, ?_⟩
  · have hlk : hmLookup kind ((r.register_listener kind).2).listeners
        = some (hmInsert r.nextId (wrappedListener T)
            ((hmLookup kind r.listeners).getD [])) := by
      simp [ListenerRegistry.register_listener, ListenerRegistry.register_with,
        hmLookup_hmInsert_self]
    have hid : (r.register_listener kind).1 = r.nextId := rfl
    rw [hid, hlk]
    simpa using hmLookup_hmInsert_self r.nextId (wrappedListener T)
      ((hmLookup kind r.listeners).getD [])
  · intro hall
    rw [emit_result_eq]
    have hf : failuresOf v ((hmLookup kind r.listeners).getD []) = [] := by
      rw [failuresOf, List.filterMap_eq_nil_iff]
      intro p hp
      obtain ⟨hpois, hok⟩ := hall p hp
      simp [Listener.call, hpois, hok]
    simp [hf]

theorem registered_wrapped_emit_ok_witness :
    (∀ p ∈ (hmLookup "a" regEx1.listeners).getD [],
        p.2.poisoned = false ∧ ∀ u : Nat, p.2.cb u = Except.ok ()) ∧
    (EventHub.emit false regEx1 "a" 3).1 = Except.ok () := by
  have hall : ∀ p ∈ (hmLookup "a" regEx1.listeners).getD [],
      p.2.poisoned = false ∧ ∀ u : Nat, p.2.cb u = Except.ok () := by
    intro p hp
    have hb : (hmLookup "a" regEx1.listeners).getD [] = [(0, wrappedListener Nat)] := rfl
    rw [hb] at hp
    rcases List.mem_singleton.mp hp with rfl
    exact ⟨rfl, fun u => rfl⟩
  exact ⟨hall, (registered_wrapped_emit_ok regEx1 "a" 3).2.2 hall⟩

/-- C7: on a well-formed registry, remove_listener returns true on exactly
the call that removes a registered id — after which any further sequence of
lifecycle operations leaves every later remove_listener call with that id
returning false and leaving the registry unchanged — while for an id not
present in the reverse index it returns false and leaves both indices
unchanged. -/
theorem remove_listener_true_once {V : Type} (r : ListenerRegistry V)
    (hwf : WF r) (id : Nat) :
    (hmLookup id r.links = none → r.remove_listener id = (false, r)) ∧
    (hmLookup id r.links ≠ none →
      (r.remove_listener id).1 = true ∧
      ∀ ops : List (RegOp V),
        (runOps (r.remove_listener id).2 ops).remove_listener id
          = (false, runOps (r.remove_listener id).2 ops)) := by
  obtain ⟨h1, h2, h3, h4, h5, h6, h7⟩ := hwf
  constructor
  · intro hnone
    simp [ListenerRegistry.remove_listener, hnone]
  · intro hsome
    cases hl : hmLookup id r.links with
    | none => exact absurd hl hsome
    | some kind =>
      have hmemlink : (id, kind) ∈ r.links := mem_of_hmLookup hl
      cases hb : hmLookup kind r.listeners with
      | none =>
        exfalso
        have := h6 _ hmemlink
        rw [hb] at this
        simp [hmKeys] at this
      | some bucket =>
        constructor
        · by_cases hempty : (hmErase id bucket).isEmpty = true <;>
            simp [ListenerRegistry.remove_listener, hl, hb, hempty]
        · intro ops
          have hidlt : id < r.nextId := h4 _ hmemlink
          have hlinks : ((r.remove_listener id).2).links = hmErase id r.links := by
            by_cases hempty : (hmErase id bucket).isEmpty = true <;>
              simp [ListenerRegistry.remove_listener, hl, hb, hempty]
          have hnext : ((r.remove_listener id).2).nextId = r.nextId := by
            by_cases hempty : (hmErase id bucket).isEmpty = true <;>
              simp [ListenerRegistry.remove_listener, hl, hb, hempty]
          have hnone' : hmLookup id ((r.remove_listener id).2).links = none := by
            rw [hlinks]
            exact hmLookup_hmErase_self id r.links
          have hlt' : id < ((r.remove_listener id).2).nextId := by
            rw [hnext]
            exact hidlt
          have hfinal := unregistered_persists_runOps ops hlt' hnone'
          generalize hS : runOps (r.remove_listener id).2 ops = S at hfinal ⊢
          simp [ListenerRegistry.remove_listener, hfinal]

theorem remove_listener_true_once_witness :
    WF regEx1 ∧
    hmLookup 5 regEx1.links = none ∧
    regEx1.remove_listener 5 = (false, regEx1) ∧
    hmLookup 0 regEx1.links ≠ none ∧
    (regEx1.remove_listener 0).1 = true := by
  have hwf : WF regEx1 := by decide
  refine ⟨hwf, rfl, ?_, ?_, ?_⟩
  · exact (remove_listener_true_once regEx1 hwf 5).1 rfl
  · decide
  · exact ((remove_listener_true_once regEx1 hwf 0).2 (by decide)).1

/-- C5 counterexample: at the exact scenario the claim describes — removal of
the registry's last listener, which leaves its bucket empty — both
remove_listener variants (the event-hub transcription and the Leptos
transcription) prune the bucket: neither exits early leaving a lingering
empty bucket, so no variant with the claimed behaviour exists. -/
theorem both_variants_prune_last_listener :
    (regEx1.remove_listener 0).1 = true ∧
    ((regEx1.remove_listener 0).2).listeners = [] ∧
    (leptosRemoveListener lregEx1 0).1 = true ∧
    ((leptosRemoveListener lregEx1 0).2).listeners = [] :=
  ⟨rfl, rfl, rfl, rfl⟩

/-- C5 amended: the two ListenerRegistry::remove_listener implementations are
extensionally identical, and each prunes a kind's bucket from the forward map
whenever a removal leaves it empty: a kind can only map to an empty bucket
after remove_listener if it already did so before. -/
theorem remove_variants_identical_no_empty_bucket {V : Type}
    (r : ListenerRegistry V) (id : Nat) :
    leptosRemoveListener r id = r.remove_listener id ∧
    ∀ kind, hmLookup kind ((r.remove_listener id).2).listeners = some [] →
      hmLookup kind r.listeners = some [] := by
  constructor
  · rfl
  · intro kind hk
    cases hl : hmLookup id r.links with
    | none =>
      have hstate : ((r.remove_listener id).2).listeners = r.listeners := by
        simp [ListenerRegistry.remove_listener, hl]
      rwa [hstate] at hk
    | some k0 =>
      cases hb : hmLookup k0 r.listeners with
      | none =>
        have hstate : ((r.remove_listener id).2).listeners = r.listeners := by
          simp [ListenerRegistry.remove_listener, hl, hb]
        rwa [hstate] at hk
      | some bucket =>
        by_cases hempty : (hmErase id bucket).isEmpty = true
        · have hstate : ((r.remove_listener id).2).listeners
              = hmErase k0 r.listeners := by
            simp [ListenerRegistry.remove_listener, hl, hb, hempty]
          rw [hstate] at hk
          by_cases hkk : kind = k0
          · subst hkk
            rw [hmLookup_hmErase_self] at hk
            cases hk
          · rwa [hmLookup_hmErase_ne _ hkk] at hk
        · have hstate : ((r.remove_listener id).2).listeners
              = hmInsert k0 (hmErase id bucket) r.listeners := by
            simp [ListenerRegistry.remove_listener, hl, hb, hempty]
          rw [hstate] at hk
          by_cases hkk : kind = k0
          · subst hkk
            rw [hmLookup_hmInsert_self] at hk
            exfalso
            apply hempty
            rw [List.isEmpty_iff]
            exact (Option.some.injEq _ _).mp hk
          · rwa [hmLookup_hmInsert_ne _ _ hkk] at hk

theorem remove_variants_identical_witness :
    leptosRemoveListener regEmptyBucket 0 = regEmptyBucket.remove_listener 0 ∧
    hmLookup "b" ((regEmptyBucket.remove_listener 0).2).listeners = some [] ∧
    hmLookup "b" regEmptyBucket.listeners = some [] := by
  have h := remove_variants_identical_no_empty_bucket regEmptyBucket 0
  exact ⟨h.1, rfl, h.2 "b" rfl⟩

/-- C3: the emit paths actually built by the hub in manager.rs — EventHub::emit
and the closures of new_emitter and new_broadcast_emitter — never invoke a
listener while the registry lock is held (snapshot under a brief lock, then
release, then invoke), for every registry state, kind and value; but the
EventHubEmitter::emit and EventHubBroadcaster::emit implementations present
in src/src/event_hub/emitter.rs and broadcaster.rs hold the registry write
guard across the listener loop, and at the concrete failing input (one
listener with id 0 registered for kind a) they invoke that listener while the
lock is held. Those two files are stale: their constructors and the
listeners_mut accessor they call do not exist in the current manager.rs and
registry.rs. -/
theorem stale_paths_invoke_under_lock :
    invokesUnderLock (EventHubEmitter.emitSteps regEx1 "a" (7 : Nat)) = true ∧
    invokesUnderLock (EventHubBroadcaster.emitSteps regEx1 ["a"] (7 : Nat)) = true ∧
    (∀ (T : Type) (r : ListenerRegistry (Listener T)) (kind : String) (v : T),
      invokesUnderLock (EventHub.emitSteps r kind v) = false) ∧
    (∀ (T : Type) (kind : String) (r : ListenerRegistry (Listener T)) (v : T),
      invokesUnderLock (EventHub.newEmitterSteps kind r v) = false) ∧
    (∀ (T : Type) (kinds : Option (List String)) (r : ListenerRegistry (Listener T))
        (v : T),
      invokesUnderLock (EventHub.newBroadcastSteps kinds r v) = false) := by
  refine ⟨rfl, rfl, ?_, ?_, ?_⟩
  · intro T r kind v
    exact invokesUnderLock_snapshot_path ((hmLookup kind r.listeners).getD []) v
  · intro T kind r v
    exact invokesUnderLock_snapshot_path ((hmLookup kind r.listeners).getD []) v
  · intro T kinds r v
    exact invokesUnderLock_snapshot_path _ v

/-- C9 counterexample: with a poisoned registry lock, the emitter produced by
LeptosEventChannels::new_emitter does not surface the lock failure: the
callback merely logs it and LeptosChannelEmitter::emit still returns Ok. -/
theorem leptos_emitter_swallows_lock_failure :
    (LeptosChannelEmitter.emit "a" true lregEx1 (5 : Nat)).1 = Except.ok () ∧
    (LeptosChannelEmitter.emit "a" true lregEx1 (5 : Nat)).2.2
      = ["Failed to lock the registry in Leptos event channels"] :=
  ⟨rfl, rfl⟩

/-- C9 amended: a lock-acquisition failure is surfaced as an explicit error,
with no internal retry, by every EventHub operation (lifecycle, queries, emit,
and the emit closures of new_emitter and new_broadcast_emitter) and by every
direct LeptosEventChannels operation (emit, list_event_kinds, has_listeners,
listeners_count, clear_listeners, add_listener, remove_listener,
remove_listeners_by_kind); but the emitters produced by
LeptosEventChannels::new_emitter and LeptosEventChannels::new_broadcast_emitter
cannot propagate it — in both, the lock failure is only logged and the emitter
returns success. -/
theorem lock_failure_surfaced_except_leptos_emitter {T : Type}
    (r : ListenerRegistry (Listener T)) (lr : ListenerRegistry LCallback)
    (kind : String) (kinds : List String) (id : Nat) (v : T) :
    (EventHub.emit true r kind v).1 = Except.error EmitError.lockFailed ∧
    EventHub.list_event_kinds true r = Except.error EmitError.lockFailed ∧
    EventHub.has_listeners true r kind = Except.error EmitError.lockFailed ∧
    EventHub.listeners_count true r kind = Except.error EmitError.lockFailed ∧
    EventHub.clear_listeners true r = Except.error EmitError.lockFailed ∧
    EventHub.add_listener true r kind = Except.error EmitError.lockFailed ∧
    EventHub.remove_listener true r id = Except.error EmitError.lockFailed ∧
    EventHub.remove_listeners_by_kind true r kind
      = Except.error EmitError.lockFailed ∧
    (EventHub.newEmitterEmit kind true r v).1 = Except.error EmitError.lockFailed ∧
    (EventHub.newBroadcastEmit (EventHub.mkBroadcastKinds kinds) true r v).1
      = Except.error EmitError.lockFailed ∧
    (LeptosEventChannels.emit true lr kind v).1 = Except.error EmitError.lockFailed ∧
    LeptosEventChannels.list_event_kinds true lr
      = Except.error EmitError.lockFailed ∧
    LeptosEventChannels.has_listeners true lr kind
      = Except.error EmitError.lockFailed ∧
    LeptosEventChannels.listeners_count true lr kind
      = Except.error EmitError.lockFailed ∧
    LeptosEventChannels.clear_listeners true lr
      = Except.error EmitError.lockFailed ∧
    LeptosEventChannels.add_listener true lr kind
      = Except.error EmitError.lockFailed ∧
    LeptosEventChannels.remove_listener true lr id
      = Except.error EmitError.lockFailed ∧
    LeptosEventChannels.remove_listeners_by_kind true lr kind
      = Except.error EmitError.lockFailed ∧
    (LeptosChannelEmitter.emit kind true lr v).1 = Except.ok () ∧
    (LeptosChannelEmitter.emit kind true lr v).2.2
      = ["Failed to lock the registry in Leptos event channels"] ∧
    (LeptosChannelEmitter.broadcastEmit
        (LeptosEventChannels.mkBroadcastKinds kinds) true lr v).1 = Except.ok () ∧
    (LeptosChannelEmitter.broadcastEmit
        (LeptosEventChannels.mkBroadcastKinds kinds) true lr v).2.2
      = ["Failed to lock the registry in Leptos event channels"] :=
  ⟨rfl, rfl, rfl, rfl, rfl, rfl, rfl, rfl, rfl, rfl, rfl, rfl, rfl, rfl, rfl, rfl,
    rfl, rfl, rfl, rfl, rfl, rfl⟩

end Emitix
